import Mathlib

/-
Verification development for the passvalidator Go library (package passval).

The embedding models Go strings as lists of Unicode code points (`Str`),
with explicit UTF-8 encoding wherever the Go code measures or indexes
byte strings (Go `len(s)` and `s[i]` are byte-based).  Floating-point
score arithmetic is modelled over the rationals and the entropy curve
over the reals; integer truncation (`int(...)`) and `math.Round` are
modelled explicitly.  the Go randomized map iteration order (used when the
common-password detector walks the set of leet variants) is modelled by
an explicit enumeration-order parameter `ord`; a run of the Go program
corresponds to an `ord` producing a permutation of the canonical variant
list `leetVariantsL`.
-/

/-- Strings as lists of Unicode code points (Go strings ranged over by rune). -/
abbrev Str := List Char

/-- Models unicode.ToLower as applied by strings.ToLower; exact on ASCII,
identity elsewhere (all inputs exercised below are ASCII). -/
def goToLower (c : Char) : Char := c.toLower

/-- Models unicode.IsLower; exact on ASCII. -/
def goIsLower (c : Char) : Bool := c.isLower

/-- Models unicode.IsUpper; exact on ASCII. -/
def goIsUpper (c : Char) : Bool := c.isUpper

/-- Models unicode.IsDigit; exact on ASCII. -/
def goIsDigit (c : Char) : Bool := c.isDigit

/-- Models unicode.IsPunct || unicode.IsSymbol; exact on ASCII
(printable, not alphanumeric, not space). -/
def goIsPunctOrSymbol (c : Char) : Bool :=
  let n := c.toNat
  decide ((33 ≤ n ∧ n ≤ 47) ∨ (58 ≤ n ∧ n ≤ 64) ∨ (91 ≤ n ∧ n ≤ 96) ∨ (123 ≤ n ∧ n ≤ 126))

/-- UTF-8 encoding of one code point, as Go encodes string bytes. -/
def utf8Bytes (c : Char) : List Nat :=
  let n := c.toNat
  if n < 128 then [n]
  else if n < 2048 then [192 + n / 64, 128 + n % 64]
  else if n < 65536 then [224 + n / 4096, 128 + (n / 64) % 64, 128 + n % 64]
  else [240 + n / 262144, 128 + (n / 4096) % 64, 128 + (n / 64) % 64, 128 + n % 64]

/-- UTF-8 byte sequence of a string (the `[]byte` view Go indexes). -/
def utf8Str : Str → List Nat
  | [] => []
  | c :: rest => utf8Bytes c ++ utf8Str rest

/-- Go len(s): the byte length of the UTF-8 encoding. -/
def utf8Len (s : Str) : Nat := (utf8Str s).length

/-- Models a subset of unicode whitespace trimmed by strings.TrimSpace
(exact on the ASCII whitespace actually occurring in dictionary data). -/
def goIsSpace (c : Char) : Bool :=
  c = ' ' || c = '\t' || c = '\n' || c = '\r' || c.toNat = 11 || c.toNat = 12

/-- strings.TrimSpace. -/
def trimSpace (s : Str) : Str :=
  ((s.dropWhile goIsSpace).reverse.dropWhile goIsSpace).reverse

/-- strings.Split(data, "\n"). -/
def splitNl : Str → List Str
  | [] => [[]]
  | c :: rest =>
    let r := splitNl rest
    if c = '\n' then [] :: r
    else
      match r with
      | h :: t => (c :: h) :: t
      | [] => [[c]]

/-- loadDictionary from dictionary.go: lines are lower-cased, trimmed, and
empty entries dropped.  The resulting word list serves both the exact-match
set and the substring-scan slice (they hold the same words). -/
def loadDictionary (data : Str) : List Str :=
  ((splitNl data).map (fun line => trimSpace (line.map goToLower))).filter (fun w => w ≠ [])

/-- dictionary.contains: exact membership test. -/
def dictContains (dict : List Str) (word : Str) : Bool := decide (word ∈ dict)

/-- leetMap from leet.go: obfuscation characters and their candidate letters. -/
def leetMap (c : Char) : List Char :=
  if c = '@' then ['a']
  else if c = '4' then ['a']
  else if c = '8' then ['b']
  else if c = '(' then ['c']
  else if c = Char.ofNat 123 then ['c']
  else if c = '3' then ['e']
  else if c = '6' then ['g']
  else if c = '#' then ['h']
  else if c = '!' then ['i']
  else if c = '1' then ['i', 'l']
  else if c = '|' then ['i', 'l']
  else if c = '0' then ['o']
  else if c = '9' then ['g', 'q']
  else if c = '5' then ['s']
  else if c = '$' then ['s']
  else if c = '7' then ['t']
  else if c = '+' then ['t']
  else if c = '2' then ['z']
  else if c = '%' then ['x']
  else []

/-- leetNormalize: replace every mapped character by its first candidate. -/
def leetNormalize (s : Str) : Str :=
  s.map (fun c =>
    match leetMap c with
    | [] => c
    | r :: _ => r)

/-- Ambiguous positions of a string: index and options of every character
with more than one candidate mapping, in left-to-right order. -/
def leetAmbiguities (s : Str) : List (Nat × List Char) :=
  s.enum.filterMap (fun ic =>
    if (leetMap ic.2).length > 1 then some (ic.1, leetMap ic.2) else none)

/-- Cartesian combination loop of leetVariants: each step extends every
partial combination with each option of the next ambiguity. -/
def combosOf (optsList : List (List Char)) : List (List Char) :=
  optsList.foldl
    (fun combos opts => combos.flatMap (fun combo => opts.map (fun o => combo ++ [o])))
    [[]]

/-- Per-combo variant construction of leetVariants: start from the primary
normalization and overwrite the chosen ambiguous positions. -/
def applyCombo (primary : Str) (taken : List (Nat × List Char)) (combo : List Char) : Str :=
  (taken.zip combo).foldl (fun r pc => r.set pc.1.1 pc.2) primary

/-- leetVariants as a canonical deduplicated list.  The Go function collects
the same strings into a map[string]bool and returns them in randomized map
iteration order; an `ord` parameter elsewhere accounts for that order. -/
def leetVariantsL (s : Str) : List Str :=
  let primary := leetNormalize s
  let ambs := leetAmbiguities s
  let limit := if ambs.length > 2 then 2 else ambs.length
  let taken := ambs.take limit
  let results :=
    if limit > 0 then (combosOf (taken.map Prod.snd)).map (applyCombo primary taken) else []
  (primary :: results).dedup

example : leetNormalize (("p@ssw0rd").toList) = ("password").toList := by decide
example : leetVariantsL (("p@ss1").toList) = [("passi").toList, ("passl").toList] := by decide

/-- Single quote character, used inside penalty descriptions. -/
def sqc : Str := [Char.ofNat 39]

/-- PenaltyDetail from validator.go; the float64 factor is modelled in ℚ. -/
structure PenaltyDetail where
  rule : Str
  factor : ℚ
  desc : Str
deriving DecidableEq, Repr

/-- ValidationError from validator.go. -/
structure ValidationError where
  Penalties : List PenaltyDetail
  RuleFails : List Str
deriving DecidableEq, Repr

/-- Go integer truncation int(q) of a float value, modelled on ℚ. -/
def goTrunc (q : ℚ) : Int := if q < 0 then -Int.floor (-q) else Int.floor q

/-- Go fmt %.0f formatting of a nonnegative value: round half to even. -/
def goFmtF0 (q : ℚ) : Int :=
  let f := Int.floor q
  let r := q - f
  if r < 1/2 then f
  else if 1/2 < r then f + 1
  else if f % 2 = 0 then f else f + 1

/-- strings.Join(l, sep). -/
def joinWith (sep : Str) : List Str → Str
  | [] => []
  | [x] => x
  | x :: rest => x ++ sep ++ joinWith sep rest

/-- Description of the common-password-leet penalty, naming the matched variant. -/
def leetMatchDesc (v : Str) : Str :=
  ("password matches common password via leet-speak (").toList ++ v ++ (")").toList

/-- penaltyCommonPassword with the variant iteration order made explicit:
with `vs` the order in which the Go map iteration yields the variant set. -/
def pcpOn (lower : Str) (dict : List Str) (vs : List Str) : Option PenaltyDetail :=
  if dictContains dict lower then
    some ⟨("common_password").toList, 1/10, ("password is in the common passwords list").toList⟩
  else
    match vs.find? (fun v => dictContains dict v) with
    | some v => some ⟨("common_password_leet").toList, 3/20, leetMatchDesc v⟩
    | none => none

/-- penaltyCommonPassword from penalties.go; `ord` supplies the map iteration
order over the computed variant set. -/
def penaltyCommonPassword (lower : Str) (dict : List Str) (ord : List Str → List Str) :
    Option PenaltyDetail :=
  pcpOn lower dict (ord (leetVariantsL lower))

/-- Inner loop of the longest-consecutive-repeat computation over bytes. -/
def mrAux : Nat → Nat → Nat → List Nat → Nat
  | _, _, mx, [] => mx
  | prev, cur, mx, b :: rest =>
    if b = prev then mrAux b (cur + 1) (max mx (cur + 1)) rest
    else mrAux b 1 mx rest

/-- Longest run of identical consecutive bytes (maxRepeat in penaltyRepeatedChars). -/
def maxRepeatRun : List Nat → Nat
  | [] => 1
  | b :: rest => mrAux b 1 1 rest

/-- Ratio of distinct runes to byte length (uniqueRatio in penaltyRepeatedChars). -/
def uniqueRatio (lower : Str) : ℚ :=
  ((lower.dedup).length : ℚ) / ((utf8Str lower).length : ℚ)

/-- Description fragment for the consecutive-repeat reason. -/
def repeatMsg (n : Nat) : Str := (toString n).toList ++ (" consecutive repeated characters").toList

/-- Description fragment for the low-diversity reason. -/
def lowDiversityMsg (r : ℚ) : Str :=
  ("low character diversity (").toList ++ (toString (goFmtF0 (r * 100))).toList ++ ("% unique)").toList

/-- Description fragment for the moderate-diversity reason. -/
def modDiversityMsg (r : ℚ) : Str :=
  ("moderate character diversity (").toList ++ (toString (goFmtF0 (r * 100))).toList ++ ("% unique)").toList

/-- penaltyRepeatedChars from penalties.go. -/
def penaltyRepeatedChars (lower : Str) : Option PenaltyDetail :=
  if (utf8Str lower).length < 3 then none
  else
    let maxRepeat := maxRepeatRun (utf8Str lower)
    let ur := uniqueRatio lower
    let fr : ℚ × List Str :=
      if maxRepeat ≥ 4 then ((1 : ℚ) * (2/5), [repeatMsg maxRepeat])
      else if maxRepeat ≥ 3 then ((1 : ℚ) * (3/5), [repeatMsg maxRepeat])
      else ((1 : ℚ), [])
    let fr2 : ℚ × List Str :=
      if ur < 2/5 then (fr.1 * (1/2), fr.2 ++ [lowDiversityMsg ur])
      else if ur < 3/5 then (fr.1 * (7/10), fr.2 ++ [modDiversityMsg ur])
      else fr
    if fr2.1 < 1 then some ⟨("repeated_chars").toList, fr2.1, joinWith (("; ").toList) fr2.2⟩
    else none

/-- Inner loop of the longest ±1-byte-step run (maxSeq in penaltySequentialChars). -/
def msAux : Nat → Nat → Nat → List Nat → Nat
  | _, _, mx, [] => mx
  | prev, cur, mx, b :: rest =>
    if (b : Int) - (prev : Int) = 1 ∨ (b : Int) - (prev : Int) = -1 then
      msAux b (cur + 1) (max mx (cur + 1)) rest
    else msAux b 1 mx rest

/-- Longest run of consecutive bytes differing by exactly ±1. -/
def maxSeqRun : List Nat → Nat
  | [] => 1
  | b :: rest => msAux b 1 1 rest

/-- penaltySequentialChars from penalties.go. -/
def penaltySequentialChars (lower : Str) : Option PenaltyDetail :=
  if (utf8Str lower).length < 3 then none
  else
    let maxSeq := maxSeqRun (utf8Str lower)
    if maxSeq ≥ 5 then
      some ⟨("sequential_chars").toList, 3/10,
        ("long sequential pattern detected (").toList ++ (toString maxSeq).toList ++ (" chars)").toList⟩
    else if maxSeq ≥ 4 then
      some ⟨("sequential_chars").toList, 1/2,
        ("sequential pattern detected (").toList ++ (toString maxSeq).toList ++ (" chars)").toList⟩
    else if maxSeq ≥ 3 then
      some ⟨("sequential_chars").toList, 7/10,
        ("short sequential pattern detected (").toList ++ (toString maxSeq).toList ++ (" chars)").toList⟩
    else none

/-- Keyboard reference rows from penalties.go. -/
def keyboardRows : List Str :=
  [("qwertyuiop").toList, ("asdfghjkl").toList, ("zxcvbnm").toList, ("1234567890").toList,
   ("qazwsx").toList, ("edcrfv").toList, ("tgbyhn").toList, ("yujm").toList]

/-- Length of the common prefix of two byte lists (inner k-loop of
longestCommonSubstringLen). -/
def commonPrefLen : List Nat → List Nat → Nat
  | x :: xs, y :: ys => if x = y then commonPrefLen xs ys + 1 else 0
  | _, _ => 0

/-- longestCommonSubstringLen from penalties.go, over bytes. -/
def lcsLen (a b : List Nat) : Nat :=
  if a.length = 0 ∨ b.length = 0 then 0
  else
    ((List.range a.length).map (fun i =>
      ((List.range b.length).map (fun j => commonPrefLen (a.drop i) (b.drop j))).foldl max 0)).foldl
      max 0

/-- reverseString from penalties.go (rune reversal). -/
def reverseString (s : Str) : Str := s.reverse

/-- penaltyKeyboardPatterns from penalties.go. -/
def penaltyKeyboardPatterns (lower : Str) : Option PenaltyDetail :=
  let bestMatch := keyboardRows.foldl
    (fun best row =>
      max (max best (lcsLen (utf8Str lower) (utf8Str row)))
        (lcsLen (utf8Str lower) (utf8Str (reverseString row)))) 0
  if bestMatch ≥ 6 then
    some ⟨("keyboard_pattern").toList, 1/5,
      ("long keyboard pattern detected (").toList ++ (toString bestMatch).toList ++ (" chars)").toList⟩
  else if bestMatch ≥ 5 then
    some ⟨("keyboard_pattern").toList, 2/5,
      ("keyboard pattern detected (").toList ++ (toString bestMatch).toList ++ (" chars)").toList⟩
  else if bestMatch ≥ 4 then
    some ⟨("keyboard_pattern").toList, 3/5,
      ("short keyboard pattern detected (").toList ++ (toString bestMatch).toList ++ (" chars)").toList⟩
  else none

/-- strings.Contains over bytes. -/
def containsSub (hay pat : List Nat) : Bool :=
  (List.range (hay.length + 1)).any (fun i => pat.isPrefixOf (hay.drop i))

/-- penaltyDictionarySubstring from penalties.go. -/
def penaltyDictionarySubstring (lower : Str) (dict : List Str) : Option PenaltyDetail :=
  let normalized := leetNormalize lower
  let longestMatch := dict.foldl
    (fun best w =>
      if utf8Len w < 4 then best
      else if (containsSub (utf8Str lower) (utf8Str w) ||
               containsSub (utf8Str normalized) (utf8Str w)) && utf8Len w > utf8Len best then w
      else best) []
  if longestMatch = [] then none
  else
    let ratio : ℚ := (utf8Len longestMatch : ℚ) / (utf8Len lower : ℚ)
    if ratio ≥ 4/5 then
      some ⟨("dictionary_substring").toList, 1/5,
        ("password is mostly the dictionary word ").toList ++ sqc ++ longestMatch ++ sqc⟩
    else if ratio ≥ 1/2 then
      some ⟨("dictionary_substring").toList, 1/2,
        ("password contains dictionary word ").toList ++ sqc ++ longestMatch ++ sqc⟩
    else if ratio ≥ 3/10 then
      some ⟨("dictionary_substring").toList, 7/10,
        ("password contains dictionary word ").toList ++ sqc ++ longestMatch ++ sqc⟩
    else none

/-- detectPenalties from penalties.go: the five detectors in fixed order over
the lower-cased password. -/
def detectPenalties (password : Str) (dict : List Str) (ord : List Str → List Str) :
    List PenaltyDetail :=
  let lower := password.map goToLower
  (penaltyCommonPassword lower dict ord).toList ++
  (penaltyRepeatedChars lower).toList ++
  (penaltySequentialChars lower).toList ++
  (penaltyKeyboardPatterns lower).toList ++
  (penaltyDictionarySubstring lower dict).toList

example : penaltyRepeatedChars (("aa").toList) = none := by
  rw [penaltyRepeatedChars, if_pos (by decide)]
example : uniqueRatio (("aa").toList) = 1/2 := by
  rw [uniqueRatio, show ((("aa").toList).dedup).length = 1 from by decide,
    show (utf8Str (("aa").toList)).length = 2 from by decide]
  norm_num

/-- One step of the character-class scan in effectivePoolSize (entropy.go);
the default branch counts every unclassified rune as a symbol. -/
def classFlagStep (f : Bool × Bool × Bool × Bool) (r : Char) : Bool × Bool × Bool × Bool :=
  if goIsLower r then (true, f.2.1, f.2.2.1, f.2.2.2)
  else if goIsUpper r then (f.1, true, f.2.2.1, f.2.2.2)
  else if goIsDigit r then (f.1, f.2.1, true, f.2.2.2)
  else (f.1, f.2.1, f.2.2.1, true)

/-- effectivePoolSize from entropy.go. -/
def effectivePoolSize (password : Str) : Nat :=
  let f := password.foldl classFlagStep (false, false, false, false)
  (if f.1 then 26 else 0) + (if f.2.1 then 26 else 0) +
  (if f.2.2.1 then 10 else 0) + (if f.2.2.2 then 33 else 0)

/-- calculateEntropy from entropy.go: byte length times log2 of the pool size. -/
noncomputable def calculateEntropy (password : Str) : ℝ :=
  if utf8Len password = 0 then 0
  else if effectivePoolSize password ≤ 1 then 0
  else (utf8Len password : ℝ) * Real.logb 2 (effectivePoolSize password : ℝ)

/-- Sequential clamp of entropy.go entropyToScore: first cap at 100, then floor at 0. -/
def clampHiLo (s : Int) : Int :=
  if (if s > 100 then 100 else s) < 0 then 0 else (if s > 100 then 100 else s)

/-- entropyToScore from entropy.go.  math.Round is modelled by `round`
(identical for the nonnegative values the curve produces). -/
noncomputable def entropyToScore (entropy : ℝ) : Int :=
  if entropy ≤ 0 then 0
  else clampHiLo (round (100 * (1 - Real.exp (-entropy / 40))))

/-- charClasses from validator.go: switch with no default branch, so runes
that are none of the four classes set no flag. -/
def charClasses (password : Str) : Bool × Bool × Bool × Bool :=
  password.foldl
    (fun f r =>
      if goIsLower r then (true, f.2.1, f.2.2.1, f.2.2.2)
      else if goIsUpper r then (f.1, true, f.2.2.1, f.2.2.2)
      else if goIsDigit r then (f.1, f.2.1, true, f.2.2.2)
      else if goIsPunctOrSymbol r then (f.1, f.2.1, f.2.2.1, true)
      else f)
    (false, false, false, false)

/-- PasswordValidator configuration from validator.go (dict held as word list). -/
structure PasswordValidator where
  MinLength : Int
  MaxLength : Int
  RequireLower : Bool
  RequireUpper : Bool
  RequireNumbers : Bool
  RequireSymbols : Bool
  Complexity : Int
  dict : List Str

/-- NewPasswordValidatorWithDict from validator.go.  The embedded default
dictionary resource (data/common_passwords.txt) is not part of the sources,
so the package-level globalDict is passed as the `gdict` parameter. -/
def NewPasswordValidatorWithDict (mn mx : Int) (lo up nu sy : Bool) (cx : Int)
    (customDict : Str) (gdict : List Str) : PasswordValidator :=
  let cx1 := if cx < 0 then 0 else cx
  let cx2 := if cx1 > 100 then 100 else cx1
  let mn1 := if mn < 1 then 1 else mn
  let mx1 := if mx < mn1 then mn1 else mx
  let dict := if customDict ≠ [] then loadDictionary customDict else gdict
  ⟨mn1, mx1, lo, up, nu, sy, cx2, dict⟩

/-- Length and character-class rule checks of validate (validator.go lines
111-132), in source order.  Go len(password) is the UTF-8 byte length. -/
def tooShortMsg (n : Int) : Str :=
  ("too short: minimum ").toList ++ (toString n).toList ++ (" characters").toList

/-- Message of the maximum-length rule failure. -/
def tooLongMsg (n : Int) : Str :=
  ("too long: maximum ").toList ++ (toString n).toList ++ (" characters").toList

/-- Message of the missing-lowercase rule failure. -/
def missingLowerMsg : Str := ("missing lowercase letter").toList

/-- Message of the missing-uppercase rule failure. -/
def missingUpperMsg : Str := ("missing uppercase letter").toList

/-- Message of the missing-number rule failure. -/
def missingNumberMsg : Str := ("missing number").toList

/-- Message of the missing-symbol rule failure. -/
def missingSymbolMsg : Str := ("missing symbol").toList

/-- Message of the synthetic complexity-shortfall rule failure. -/
def complexityMsg (score threshold : Int) : Str :=
  ("complexity ").toList ++ (toString score).toList ++
  (" below threshold ").toList ++ (toString threshold).toList

/-- Rule-check portion of validate: every violated rule is recorded, in order. -/
def ruleChecks (v : PasswordValidator) (password : Str) : List Str :=
  (if (utf8Len password : Int) < v.MinLength then [tooShortMsg v.MinLength] else []) ++
  (if (utf8Len password : Int) > v.MaxLength then [tooLongMsg v.MaxLength] else []) ++
  (if v.RequireLower && !(charClasses password).1 then [missingLowerMsg] else []) ++
  (if v.RequireUpper && !(charClasses password).2.1 then [missingUpperMsg] else []) ++
  (if v.RequireNumbers && !(charClasses password).2.2.1 then [missingNumberMsg] else []) ++
  (if v.RequireSymbols && !(charClasses password).2.2.2 then [missingSymbolMsg] else [])

/-- Sequential clamp of validate: first floor at 0, then cap at 100. -/
def clampLoHi (s : Int) : Int :=
  if (if s < 0 then 0 else s) > 100 then 100 else (if s < 0 then 0 else s)

/-- validate from validator.go: rule checks, entropy score, multiplicative
penalties (int truncation at every step), clamping, verdict. -/
noncomputable def validate (v : PasswordValidator) (ord : List Str → List Str)
    (password : Str) : Bool × Int × ValidationError :=
  let ruleFails0 := ruleChecks v password
  let score0 := entropyToScore (calculateEntropy password)
  let penalties := detectPenalties password v.dict ord
  let score1 := penalties.foldl (fun s p => goTrunc ((s : ℚ) * p.factor)) score0
  let score2 := clampLoHi score1
  let rulesPass := ruleFails0.isEmpty
  let complexityPass := decide (score2 ≥ v.Complexity)
  let ruleFails := if complexityPass then ruleFails0
    else ruleFails0 ++ [complexityMsg score2 v.Complexity]
  (rulesPass && complexityPass, score2, ⟨penalties, ruleFails⟩)

/-- Validate from validator.go. -/
noncomputable def Validate (v : PasswordValidator) (ord : List Str → List Str)
    (password : Str) : Bool × Int :=
  ((validate v ord password).1, (validate v ord password).2.1)

/-- ValidateVerbose from validator.go: error is nil exactly on pass. -/
noncomputable def ValidateVerbose (v : PasswordValidator) (ord : List Str → List Str)
    (password : Str) : Bool × Int × Option ValidationError :=
  if (validate v ord password).1 then ((validate v ord password).1, (validate v ord password).2.1, none)
  else ((validate v ord password).1, (validate v ord password).2.1, some (validate v ord password).2.2)

/-- Lowercase charset constant of generateCandidate. -/
def lowerChars : Str := ("abcdefghijklmnopqrstuvwxyz").toList

/-- Uppercase charset constant of generateCandidate. -/
def upperChars : Str := ("ABCDEFGHIJKLMNOPQRSTUVWXYZ").toList

/-- Digit charset constant of generateCandidate. -/
def numberChars : Str := ("0123456789").toList

/-- Symbol charset constant of generateCandidate. -/
def symbolChars : Str :=
  ("!@#$%^&*()-_=+[]").toList ++ [Char.ofNat 123, Char.ofNat 125] ++ ("|;:").toList ++
  [Char.ofNat 39] ++ (",.<>?/").toList ++ [Char.ofNat 96, '~']

/-- Swap of two list entries (the shuffle step of generateCandidate). -/
def listSwap (l : List Nat) (i j : Nat) : List Nat :=
  match l[i]?, l[j]? with
  | some a, some b => (l.set i b).set j a
  | _, _ => l

/-- Fisher-Yates shuffle loop of generateCandidate.  `rng i` models the i-th
draw from crypto/rand reduced modulo the requested bound. -/
def fisherYates (rng : Nat → Nat) (t : Nat) : Nat → List Nat → List Nat × Nat
  | 0, ps => (ps, t)
  | Nat.succ i2, ps => fisherYates rng (t + 1) i2 (listSwap ps (i2 + 1) (rng t % (i2 + 2)))

/-- Required-class fill loop of generateCandidate.  Writing through
positions[pos] when pos is past the end of the positions slice is a Go
index-out-of-range panic, modelled as `none`. -/
def fillRequired (rng : Nat → Nat) (t : Nat) (pos : Nat) (reqs : List Str)
    (positions : List Nat) (pwd : Str) : Option (Str × Nat × Nat) :=
  match reqs with
  | [] => some (pwd, pos, t)
  | req :: rest =>
    match positions[pos]? with
    | none => none
    | some p =>
      if req.length = 0 then none
      else fillRequired rng (t + 1) (pos + 1) rest positions
        (pwd.set p (req.getD (rng t % req.length) ' '))

/-- Remaining-position fill loop of generateCandidate. -/
def fillRemaining (rng : Nat → Nat) (t : Nat) (charset : Str) :
    List Nat → Str → Option Str
  | [], pwd => some pwd
  | p :: rest, pwd =>
    if charset.length = 0 then none
    else fillRemaining rng (t + 1) charset rest
      (pwd.set p (charset.getD (rng t % charset.length) ' '))

/-- generateCandidate from validator.go, with the crypto/rand draws supplied
by `rng` (the i-th call yields `rng i` reduced modulo the bound).  A Go
runtime panic is modelled as `none`. -/
def generateCandidate (v : PasswordValidator) (rng : Nat → Nat) : Option Str :=
  let lengthT : Int × Nat :=
    if v.MaxLength > v.MinLength then
      (v.MinLength + ((rng 0 % (v.MaxLength - v.MinLength + 1).toNat : Nat) : Int), 1)
    else (v.MinLength, 0)
  let charset0 : Str :=
    (if v.RequireLower then lowerChars else []) ++
    (if v.RequireUpper then upperChars else []) ++
    (if v.RequireNumbers then numberChars else []) ++
    (if v.RequireSymbols then symbolChars else [])
  let required : List Str :=
    (if v.RequireLower then [lowerChars] else []) ++
    (if v.RequireUpper then [upperChars] else []) ++
    (if v.RequireNumbers then [numberChars] else []) ++
    (if v.RequireSymbols then [symbolChars] else [])
  let charset := if charset0 = [] then lowerChars ++ upperChars ++ numberChars ++ symbolChars
    else charset0
  let n := lengthT.1.toNat
  let pT := fisherYates rng lengthT.2 (n - 1) (List.range n)
  match fillRequired rng pT.2 0 required pT.1 (List.replicate n (Char.ofNat 0)) with
  | none => none
  | some (pwd1, pos, t2) => fillRemaining rng t2 charset (pT.1.drop pos) pwd1

/-- Result of Generate: a password, the exhausted-attempts error, or a panic. -/
inductive GenResult where
  | password (s : Str)
  | exhausted
  | panic
deriving DecidableEq, Repr

/-- Retry loop of Generate (validator.go): each attempt draws a fresh
candidate from its own random stream `rngs i` and validates it terse-form. -/
noncomputable def GenerateLoop (v : PasswordValidator) (ord : List Str → List Str)
    (rngs : Nat → Nat → Nat) : Nat → Nat → GenResult
  | _, 0 => GenResult.exhausted
  | i, Nat.succ fuel =>
    match generateCandidate v (rngs i) with
    | none => GenResult.panic
    | some pwd =>
      if (Validate v ord pwd).1 then GenResult.password pwd
      else GenerateLoop v ord rngs (i + 1) fuel

/-- Generate from validator.go: up to 1000 attempts. -/
noncomputable def Generate (v : PasswordValidator) (ord : List Str → List Str)
    (rngs : Nat → Nat → Nat) : GenResult :=
  GenerateLoop v ord rngs 0 1000

/-- Configuration exhibiting the generator panic: min = max = 1 with all four
character classes required; the constructor clamps accept it unchanged. -/
def panicConfig : PasswordValidator :=
  NewPasswordValidatorWithDict 1 1 true true true true 0 [] []

/-- C1: the claim states that Generate never panics and always returns a
password or a GenerationExhausted error, even when the configured minimum
length is smaller than the number of required character classes.  The code
violates this: with min = max = 1 and all four classes required, the
required-class fill loop of generateCandidate writes through positions[1]
while the positions slice has length 1, a Go index-out-of-range panic, so
every attempt (hence Generate itself) panics, for every random stream. -/
theorem C1_generate_panics :
    (∀ rng : Nat → Nat, generateCandidate panicConfig rng = none) ∧
    (∀ (ord : List Str → List Str) (rngs : Nat → Nat → Nat),
      Generate panicConfig ord rngs = GenResult.panic) := by
  have hc : ∀ rng : Nat → Nat, generateCandidate panicConfig rng = none := fun rng => rfl
  refine ⟨hc, fun ord rngs => ?_⟩
  show GenerateLoop panicConfig ord rngs 0 (Nat.succ 999) = GenResult.panic
  rw [GenerateLoop, hc]

/-- C8: constructor inputs are clamped, never rejected: min below 1 becomes 1,
max below the clamped min becomes that min, complexity is clamped into
[0, 100], the class-requirement booleans are stored as given, and the
resulting configuration always satisfies 1 ≤ MinLength ≤ MaxLength and
0 ≤ Complexity ≤ 100. -/
theorem C8_constructor_clamps :
    ∀ (mn mx : Int) (lo up nu sy : Bool) (cx : Int) (customDict : Str) (gdict : List Str),
    1 ≤ (NewPasswordValidatorWithDict mn mx lo up nu sy cx customDict gdict).MinLength ∧
    (NewPasswordValidatorWithDict mn mx lo up nu sy cx customDict gdict).MinLength ≤
      (NewPasswordValidatorWithDict mn mx lo up nu sy cx customDict gdict).MaxLength ∧
    0 ≤ (NewPasswordValidatorWithDict mn mx lo up nu sy cx customDict gdict).Complexity ∧
    (NewPasswordValidatorWithDict mn mx lo up nu sy cx customDict gdict).Complexity ≤ 100 ∧
    (mn < 1 → (NewPasswordValidatorWithDict mn mx lo up nu sy cx customDict gdict).MinLength = 1) ∧
    (1 ≤ mn → (NewPasswordValidatorWithDict mn mx lo up nu sy cx customDict gdict).MinLength = mn) ∧
    (mx < (NewPasswordValidatorWithDict mn mx lo up nu sy cx customDict gdict).MinLength →
      (NewPasswordValidatorWithDict mn mx lo up nu sy cx customDict gdict).MaxLength =
      (NewPasswordValidatorWithDict mn mx lo up nu sy cx customDict gdict).MinLength) ∧
    ((NewPasswordValidatorWithDict mn mx lo up nu sy cx customDict gdict).MinLength ≤ mx →
      (NewPasswordValidatorWithDict mn mx lo up nu sy cx customDict gdict).MaxLength = mx) ∧
    (cx < 0 → (NewPasswordValidatorWithDict mn mx lo up nu sy cx customDict gdict).Complexity = 0) ∧
    (100 < cx → (NewPasswordValidatorWithDict mn mx lo up nu sy cx customDict gdict).Complexity = 100) ∧
    (0 ≤ cx → cx ≤ 100 →
      (NewPasswordValidatorWithDict mn mx lo up nu sy cx customDict gdict).Complexity = cx) ∧
    (NewPasswordValidatorWithDict mn mx lo up nu sy cx customDict gdict).RequireLower = lo ∧
    (NewPasswordValidatorWithDict mn mx lo up nu sy cx customDict gdict).RequireUpper = up ∧
    (NewPasswordValidatorWithDict mn mx lo up nu sy cx customDict gdict).RequireNumbers = nu ∧
    (NewPasswordValidatorWithDict mn mx lo up nu sy cx customDict gdict).RequireSymbols = sy := by
  intro mn mx lo up nu sy cx customDict gdict
  have hmin : (NewPasswordValidatorWithDict mn mx lo up nu sy cx customDict gdict).MinLength =
      if mn < 1 then 1 else mn := rfl
  have hmax : (NewPasswordValidatorWithDict mn mx lo up nu sy cx customDict gdict).MaxLength =
      if mx < (if mn < 1 then 1 else mn) then (if mn < 1 then 1 else mn) else mx := rfl
  have hcx : (NewPasswordValidatorWithDict mn mx lo up nu sy cx customDict gdict).Complexity =
      if (if cx < 0 then 0 else cx) > 100 then 100 else (if cx < 0 then 0 else cx) := rfl
  refine ⟨?_, ?_, ?_, ?_, ?_, ?_, ?_, ?_, ?_, ?_, ?_, rfl, rfl, rfl, rfl⟩ <;>
    simp only [hmin, hmax, hcx] <;> split_ifs <;> omega

/-- C8 witness: a concrete construction with out-of-range min, max and
complexity, clamped as documented. -/
theorem C8_constructor_clamps_witness :
    (NewPasswordValidatorWithDict (-5) (-7) true false true false 150 [] []).MinLength = 1 ∧
    (NewPasswordValidatorWithDict (-5) (-7) true false true false 150 [] []).MaxLength = 1 ∧
    (NewPasswordValidatorWithDict (-5) (-7) true false true false 150 [] []).Complexity = 100 := by
  obtain ⟨-, -, -, -, h1, -, h2, -, -, h3, -⟩ :=
    C8_constructor_clamps (-5) (-7) true false true false 150 [] []
  exact ⟨h1 (by norm_num), by rw [h2 (by rw [h1 (by norm_num)]; norm_num), h1 (by norm_num)],
    h3 (by norm_num)⟩

/-- Run-length factor of the repeated-characters detector, stated as the spec
words it (run ≥ 4 gives 0.4; run equal to 3 gives 0.6; otherwise no factor). -/
def specRunFactor (lower : Str) : ℚ :=
  if maxRepeatRun (utf8Str lower) ≥ 4 then 2/5
  else if maxRepeatRun (utf8Str lower) = 3 then 3/5
  else 1

/-- Diversity-ratio factor of the repeated-characters detector, stated as the
spec words it (ratio < 0.4 gives 0.5; 0.4 ≤ ratio < 0.6 gives 0.7). -/
def specRatioFactor (lower : Str) : ℚ :=
  if uniqueRatio lower < 2/5 then 1/2
  else if uniqueRatio lower < 3/5 then 7/10
  else 1

/-- C4 counterexample: the claim asserts that any password with distinct
ratio in [0.4, 0.6) receives a repeated_chars penalty, naming "aa" as an
example; but the detector returns early for inputs shorter than 3 bytes, so
"aa" (ratio exactly 0.5) receives no penalty. -/
theorem C4_counterexample :
    penaltyRepeatedChars (("aa").toList) = none ∧
    2/5 ≤ uniqueRatio (("aa").toList) ∧ uniqueRatio (("aa").toList) < 3/5 := by
  have hur : uniqueRatio (("aa").toList) = 1/2 := by
    rw [uniqueRatio, show ((("aa").toList).dedup).length = 1 from by decide,
      show (utf8Str (("aa").toList)).length = 2 from by decide]
    norm_num
  exact ⟨by rw [penaltyRepeatedChars, if_pos (by decide)],
    by rw [hur]; norm_num, by rw [hur]; norm_num⟩

/-- C4 amended: for passwords of byte length at least 3 the detector starts
from factor 1.0, multiplies the run band (×0.4 for run ≥ 4, ×0.6 for run 3)
with the diversity band (×0.5 for ratio < 0.4, ×0.7 for ratio in [0.4, 0.6)),
and emits a repeated_chars penalty carrying exactly that combined factor if
and only if it is < 1; passwords shorter than 3 bytes never receive the
penalty. -/
theorem C4_repeated_chars_bands : ∀ lower : Str,
    ((utf8Str lower).length < 3 → penaltyRepeatedChars lower = none) ∧
    (3 ≤ (utf8Str lower).length →
      (penaltyRepeatedChars lower = none ↔ 1 ≤ specRunFactor lower * specRatioFactor lower) ∧
      (∀ d, penaltyRepeatedChars lower = some d →
        d.rule = ("repeated_chars").toList ∧
        d.factor = specRunFactor lower * specRatioFactor lower ∧ d.factor < 1)) := by
  intro lower
  constructor
  · intro h; rw [penaltyRepeatedChars, if_pos h]
  · intro h
    have hno : ¬ (utf8Str lower).length < 3 := by omega
    simp only [penaltyRepeatedChars, specRunFactor, specRatioFactor, if_neg hno]
    by_cases h4 : maxRepeatRun (utf8Str lower) ≥ 4
    · by_cases hq1 : uniqueRatio lower < 2/5
      · simp only [if_pos h4, if_pos hq1]
        rw [if_pos (show ((1:ℚ) * (2/5)) * (1/2) < 1 from by norm_num)]
        refine ⟨⟨fun he => absurd he (by simp), fun hle => by norm_num at hle⟩, fun d hd => ?_⟩
        obtain rfl := Option.some.inj hd
        exact ⟨rfl, by norm_num, by norm_num⟩
      · by_cases hq2 : uniqueRatio lower < 3/5
        · simp only [if_pos h4, if_neg hq1, if_pos hq2]
          rw [if_pos (show ((1:ℚ) * (2/5)) * (7/10) < 1 from by norm_num)]
          refine ⟨⟨fun he => absurd he (by simp), fun hle => by norm_num at hle⟩, fun d hd => ?_⟩
          obtain rfl := Option.some.inj hd
          exact ⟨rfl, by norm_num, by norm_num⟩
        · simp only [if_pos h4, if_neg hq1, if_neg hq2]
          rw [if_pos (show ((1:ℚ) * (2/5)) < 1 from by norm_num)]
          refine ⟨⟨fun he => absurd he (by simp), fun hle => by norm_num at hle⟩, fun d hd => ?_⟩
          obtain rfl := Option.some.inj hd
          exact ⟨rfl, by norm_num, by norm_num⟩
    · by_cases h3 : maxRepeatRun (utf8Str lower) ≥ 3
      · have he3 : maxRepeatRun (utf8Str lower) = 3 := by omega
        by_cases hq1 : uniqueRatio lower < 2/5
        · simp only [if_neg h4, if_pos h3, if_pos he3, if_pos hq1]
          rw [if_pos (show ((1:ℚ) * (3/5)) * (1/2) < 1 from by norm_num)]
          refine ⟨⟨fun he => absurd he (by simp), fun hle => by norm_num at hle⟩, fun d hd => ?_⟩
          obtain rfl := Option.some.inj hd
          exact ⟨rfl, by norm_num, by norm_num⟩
        · by_cases hq2 : uniqueRatio lower < 3/5
          · simp only [if_neg h4, if_pos h3, if_pos he3, if_neg hq1, if_pos hq2]
            rw [if_pos (show ((1:ℚ) * (3/5)) * (7/10) < 1 from by norm_num)]
            refine ⟨⟨fun he => absurd he (by simp), fun hle => by norm_num at hle⟩, fun d hd => ?_⟩
            obtain rfl := Option.some.inj hd
            exact ⟨rfl, by norm_num, by norm_num⟩
          · simp only [if_neg h4, if_pos h3, if_pos he3, if_neg hq1, if_neg hq2]
            rw [if_pos (show ((1:ℚ) * (3/5)) < 1 from by norm_num)]
            refine ⟨⟨fun he => absurd he (by simp), fun hle => by norm_num at hle⟩, fun d hd => ?_⟩
            obtain rfl := Option.some.inj hd
            exact ⟨rfl, by norm_num, by norm_num⟩
      · have hne3 : ¬ maxRepeatRun (utf8Str lower) = 3 := by omega
        by_cases hq1 : uniqueRatio lower < 2/5
        · simp only [if_neg h4, if_neg h3, if_neg hne3, if_pos hq1]
          rw [if_pos (show ((1:ℚ)) * (1/2) < 1 from by norm_num)]
          refine ⟨⟨fun he => absurd he (by simp), fun hle => by norm_num at hle⟩, fun d hd => ?_⟩
          obtain rfl := Option.some.inj hd
          exact ⟨rfl, by norm_num, by norm_num⟩
        · by_cases hq2 : uniqueRatio lower < 3/5
          · simp only [if_neg h4, if_neg h3, if_neg hne3, if_neg hq1, if_pos hq2]
            rw [if_pos (show ((1:ℚ)) * (7/10) < 1 from by norm_num)]
            refine ⟨⟨fun he => absurd he (by simp), fun hle => by norm_num at hle⟩, fun d hd => ?_⟩
            obtain rfl := Option.some.inj hd
            exact ⟨rfl, by norm_num, by norm_num⟩
          · simp only [if_neg h4, if_neg h3, if_neg hne3, if_neg hq1, if_neg hq2]
            rw [if_neg (show ¬ ((1:ℚ) < 1) from by norm_num)]
            exact ⟨⟨fun _ => by norm_num, fun _ => rfl⟩, fun d hd => by cases hd⟩

/-- C4 witness: the band characterization applied to the concrete password
"aaaa" (byte length 4 ≥ 3). -/
theorem C4_repeated_chars_bands_witness :
    penaltyRepeatedChars (("aaaa").toList) = none ↔
      1 ≤ specRunFactor (("aaaa").toList) * specRatioFactor (("aaaa").toList) :=
  ((C4_repeated_chars_bands (("aaaa").toList)).2 (by decide)).1

/-- Folded position writes keep the list length. -/
theorem foldlSet_length (zs : List ((Nat × List Char) × Char)) (r : Str) :
    (zs.foldl (fun r pc => r.set pc.1.1 pc.2) r).length = r.length := by
  induction zs generalizing r with
  | nil => rfl
  | cons z zs ih => rw [List.foldl_cons, ih, List.length_set]

/-- Folded position writes do not change entries at untouched indices. -/
theorem foldlSet_getElem_ne (zs : List ((Nat × List Char) × Char)) (r : Str) (i : Nat)
    (h : ∀ pc ∈ zs, pc.1.1 ≠ i) :
    (zs.foldl (fun r pc => r.set pc.1.1 pc.2) r)[i]? = r[i]? := by
  induction zs generalizing r with
  | nil => rfl
  | cons z zs ih =>
    rw [List.foldl_cons, ih _ (fun pc hpc => h pc (List.mem_cons_of_mem z hpc)),
      List.getElem?_set_ne (h z (List.mem_cons_self z zs))]

/-- applyCombo keeps the length of the primary normalization. -/
theorem applyCombo_length (primary : Str) (taken : List (Nat × List Char)) (combo : List Char) :
    (applyCombo primary taken combo).length = primary.length :=
  foldlSet_length _ _

/-- applyCombo agrees with the primary normalization away from the chosen
ambiguous positions. -/
theorem applyCombo_getElem_ne (primary : Str) (taken : List (Nat × List Char))
    (combo : List Char) (i : Nat) (h : ∀ opts, ((i, opts) : Nat × List Char) ∉ taken) :
    (applyCombo primary taken combo)[i]? = primary[i]? := by
  refine foldlSet_getElem_ne _ _ _ (fun pc hpc => ?_)
  obtain ⟨⟨a, opts⟩, ch⟩ := pc
  intro hne
  exact h opts (hne ▸ (List.of_mem_zip hpc).1)

/-- The combinatorial cap: the limit-truncated ambiguity list of the source is just
the first two ambiguities. -/
theorem take_limit_eq (l : List (Nat × List Char)) :
    l.take (if l.length > 2 then 2 else l.length) = l.take 2 := by
  split_ifs with h
  · rfl
  · rw [List.take_of_length_le (le_refl _), List.take_of_length_le (by omega)]

/-- C7: leetVariants returns a deduplicated collection that contains the
canonical normalization, every variant has the length of the input and agrees with
the canonical form outside the first two ambiguous positions (left-to-right),
and on "p@ss1" it contains both "passi" and "passl" with at least 2 distinct
elements. -/
theorem C7_leet_variants :
    (∀ s : Str,
      (leetVariantsL s).Nodup ∧
      leetNormalize s ∈ leetVariantsL s ∧
      (∀ v ∈ leetVariantsL s, v.length = s.length ∧
        ∀ i : Nat, (∀ opts, ((i, opts) : Nat × List Char) ∉ (leetAmbiguities s).take 2) →
          v[i]? = (leetNormalize s)[i]?)) ∧
    ("passi").toList ∈ leetVariantsL (("p@ss1").toList) ∧
    ("passl").toList ∈ leetVariantsL (("p@ss1").toList) ∧
    2 ≤ (leetVariantsL (("p@ss1").toList)).length := by
  refine ⟨fun s => ?_, by decide, by decide, by decide⟩
  refine ⟨List.nodup_dedup _, List.mem_dedup.2 (List.mem_cons_self _ _), fun v hv => ?_⟩
  simp only [leetVariantsL] at hv
  rw [List.mem_dedup] at hv
  rcases List.mem_cons.1 hv with rfl | hres
  · exact ⟨by simp [leetNormalize], fun i _ => rfl⟩
  · by_cases hlim : (if (leetAmbiguities s).length > 2 then 2 else (leetAmbiguities s).length) > 0
    · rw [if_pos hlim] at hres
      obtain ⟨combo, -, rfl⟩ := List.mem_map.1 hres
      refine ⟨by rw [applyCombo_length]; simp [leetNormalize], fun i hi => ?_⟩
      rw [take_limit_eq]
      exact applyCombo_getElem_ne _ _ _ _ hi
    · rw [if_neg hlim] at hres
      cases hres

/-- C7 witness: the general shape applied to the concrete variant "passl" of
"p@ss1". -/
theorem C7_leet_variants_witness :
    (("passl").toList).length = ((("p@ss1").toList)).length :=
  ((C7_leet_variants.1 (("p@ss1").toList)).2.2 (("passl").toList) (by decide)).1

/-- Strings with different 5-char prefixes differ. -/
theorem ne_of_take5 {a b : Str} (h : a.take 5 ≠ b.take 5) : a ≠ b :=
  fun he => h (by rw [he])

/-- Prefix of the too-short message. -/
theorem take5_tooShort (n : Int) : (tooShortMsg n).take 5 = ('t' :: 'o' :: 'o' :: ' ' :: 's' :: []) :=
  rfl

/-- Prefix of the too-long message. -/
theorem take5_tooLong (n : Int) : (tooLongMsg n).take 5 = ('t' :: 'o' :: 'o' :: ' ' :: 'l' :: []) :=
  rfl

/-- The too-short message never coincides with the too-long message. -/
theorem tooShort_ne_tooLong (n m : Int) : tooShortMsg n ≠ tooLongMsg m :=
  ne_of_take5 (by rw [take5_tooShort, take5_tooLong]; decide)

/-- The too-short message never coincides with a class-requirement message. -/
theorem tooShort_ne_classMsgs (n : Int) :
    tooShortMsg n ≠ missingLowerMsg ∧ tooShortMsg n ≠ missingUpperMsg ∧
    tooShortMsg n ≠ missingNumberMsg ∧ tooShortMsg n ≠ missingSymbolMsg :=
  ⟨ne_of_take5 (by rw [take5_tooShort]; decide), ne_of_take5 (by rw [take5_tooShort]; decide),
   ne_of_take5 (by rw [take5_tooShort]; decide), ne_of_take5 (by rw [take5_tooShort]; decide)⟩

/-- The too-long message never coincides with a class-requirement message. -/
theorem tooLong_ne_classMsgs (n : Int) :
    tooLongMsg n ≠ missingLowerMsg ∧ tooLongMsg n ≠ missingUpperMsg ∧
    tooLongMsg n ≠ missingNumberMsg ∧ tooLongMsg n ≠ missingSymbolMsg :=
  ⟨ne_of_take5 (by rw [take5_tooLong]; decide), ne_of_take5 (by rw [take5_tooLong]; decide),
   ne_of_take5 (by rw [take5_tooLong]; decide), ne_of_take5 (by rw [take5_tooLong]; decide)⟩

/-- Membership in a conditional singleton. -/
theorem mem_if_singleton {α : Type} {c : Prop} [Decidable c] {a m : α} :
    (a ∈ (if c then [m] else [])) ↔ c ∧ a = m := by
  split_ifs with h <;> simp [h]

/-- C2 amended: the minimum- and maximum-length rule checks compare the UTF-8
byte length (Go len) of the password against MinLength and MaxLength; the
too-short and too-long rule failures occur exactly when the byte length is
out of range, regardless of the code-point count. -/
theorem C2_length_checks_bytes : ∀ (v : PasswordValidator) (password : Str),
    (tooShortMsg v.MinLength ∈ ruleChecks v password ↔ (utf8Len password : Int) < v.MinLength) ∧
    (tooLongMsg v.MaxLength ∈ ruleChecks v password ↔ v.MaxLength < (utf8Len password : Int)) := by
  intro v p
  obtain ⟨hl1, hl2, hl3, hl4⟩ := tooShort_ne_classMsgs v.MinLength
  obtain ⟨hg1, hg2, hg3, hg4⟩ := tooLong_ne_classMsgs v.MaxLength
  constructor
  · simp [ruleChecks, List.mem_append, mem_if_singleton, hl1, hl2, hl3, hl4,
      tooShort_ne_tooLong v.MinLength v.MaxLength, Int.lt_iff_add_one_le]
  · simp [ruleChecks, List.mem_append, mem_if_singleton, hg1, hg2, hg3, hg4,
      (tooShort_ne_tooLong v.MinLength v.MaxLength).symm, Int.lt_iff_add_one_le]

/-- Validator used by the C2 counterexample: lengths in [1, 5], no class
requirements, threshold 0. -/
def c2Config : PasswordValidator := NewPasswordValidatorWithDict 1 5 false false false false 0 [] []

/-- Lowercase e with acute accent (U+00E9): one code point, two UTF-8 bytes. -/
def eAcute : Char := Char.ofNat 233

/-- C2 counterexample: the claim says a password whose code-point count lies
within [MinLength, MaxLength] never receives a too-short or too-long rule
failure; but five copies of U+00E9 (5 code points, within [1, 5]) occupy 10
bytes, and the code compares Go len (bytes), so the too-long failure fires. -/
theorem C2_counterexample :
    (List.replicate 5 eAcute).length = 5 ∧
    c2Config.MinLength ≤ (5 : Int) ∧ (5 : Int) ≤ c2Config.MaxLength ∧
    tooLongMsg c2Config.MaxLength ∈ ruleChecks c2Config (List.replicate 5 eAcute) := by
  refine ⟨by decide, by decide, by decide, ?_⟩
  decide

/-- C6: Validate and ValidateVerbose agree on the pass verdict and score for
every password, configuration and variant order, and ValidateVerbose returns
no error exactly when the password passes. -/
theorem C6_terse_verbose_agree :
    ∀ (v : PasswordValidator) (ord : List Str → List Str) (password : Str),
    Validate v ord password =
      ((ValidateVerbose v ord password).1, (ValidateVerbose v ord password).2.1) ∧
    ((ValidateVerbose v ord password).2.2 = none ↔ (ValidateVerbose v ord password).1 = true) := by
  intro v ord p
  by_cases h : (validate v ord p).1 = true
  · simp [Validate, ValidateVerbose, h]
  · simp [Validate, ValidateVerbose, h]

/-- The clamp of entropyToScore never goes below 0. -/
theorem clampHiLo_nonneg (s : Int) : 0 ≤ clampHiLo s := by
  unfold clampHiLo; split_ifs <;> omega

/-- The clamp of entropyToScore never exceeds 100. -/
theorem clampHiLo_le_100 (s : Int) : clampHiLo s ≤ 100 := by
  unfold clampHiLo; split_ifs <;> omega

/-- The clamp of entropyToScore is monotone. -/
theorem clampHiLo_mono {s t : Int} (h : s ≤ t) : clampHiLo s ≤ clampHiLo t := by
  unfold clampHiLo; split_ifs <;> omega

/-- The clamp of entropyToScore preserves lower bounds up to 100. -/
theorem clampHiLo_lower {k s : Int} (hk : k ≤ 100) (h : k ≤ s) : k ≤ clampHiLo s := by
  unfold clampHiLo; split_ifs <;> omega

/-- entropyToScore is never negative. -/
theorem entropyToScore_nonneg (e : ℝ) : 0 ≤ entropyToScore e := by
  unfold entropyToScore; split_ifs
  · exact le_refl 0
  · exact clampHiLo_nonneg _

/-- entropyToScore never exceeds 100. -/
theorem entropyToScore_le_100 (e : ℝ) : entropyToScore e ≤ 100 := by
  unfold entropyToScore; split_ifs
  · norm_num
  · exact clampHiLo_le_100 _

/-- entropyToScore is monotone in the entropy argument. -/
theorem entropyToScore_mono {e1 e2 : ℝ} (h : e1 ≤ e2) :
    entropyToScore e1 ≤ entropyToScore e2 := by
  unfold entropyToScore
  split_ifs with h1 h2 h2
  · exact le_refl 0
  · exact clampHiLo_nonneg _
  · exact absurd (h.trans h2) h1
  · apply clampHiLo_mono
    have hexp : Real.exp (-e2 / 40) ≤ Real.exp (-e1 / 40) := Real.exp_le_exp.2 (by linarith)
    rw [round_eq, round_eq]
    exact Int.floor_mono (by linarith)

/-- Taylor lower bound for exp at 16/5, enough to place entropyToScore 128. -/
theorem exp_bound_128 : Real.exp (-(128 : ℝ) / 40) ≤ 3 / 40 := by
  have h1 : ((40 : ℝ) / 3) ≤ Real.exp (16 / 5) := by
    have h := Real.sum_le_exp_of_nonneg (show (0 : ℝ) ≤ (16 : ℝ) / 5 from by norm_num) 4
    rw [Finset.sum_range_succ, Finset.sum_range_succ, Finset.sum_range_succ,
      Finset.sum_range_succ, Finset.sum_range_zero] at h
    simp [Nat.factorial] at h
    norm_num at h
    linarith
  have h2 : Real.exp (-(128 : ℝ) / 40) = (Real.exp ((16 : ℝ) / 5))⁻¹ := by
    rw [← Real.exp_neg]; norm_num
  rw [h2]
  calc (Real.exp ((16 : ℝ) / 5))⁻¹ ≤ ((40 : ℝ) / 3)⁻¹ :=
        inv_anti₀ (by norm_num) h1
    _ ≤ 3 / 40 := by norm_num

/-- C5: entropyToScore maps 0 to 0, maps 128 bits into [93, 100], is monotone
non-decreasing, and every result is clamped into [0, 100]. -/
theorem C5_entropy_to_score :
    entropyToScore 0 = 0 ∧
    (93 ≤ entropyToScore 128 ∧ entropyToScore 128 ≤ 100) ∧
    (∀ e1 e2 : ℝ, e1 ≤ e2 → entropyToScore e1 ≤ entropyToScore e2) ∧
    (∀ e : ℝ, 0 ≤ entropyToScore e ∧ entropyToScore e ≤ 100) := by
  refine ⟨by rw [entropyToScore, if_pos le_rfl], ⟨?_, entropyToScore_le_100 _⟩,
    fun e1 e2 h => entropyToScore_mono h, fun e => ⟨entropyToScore_nonneg e, entropyToScore_le_100 e⟩⟩
  rw [entropyToScore, if_neg (by norm_num)]
  apply clampHiLo_lower (by norm_num)
  rw [round_eq]
  apply Int.le_floor.2
  push_cast
  have := exp_bound_128
  linarith

/-- C5 witness: monotonicity applied to the concrete pair (0, 128). -/
theorem C5_entropy_to_score_witness : entropyToScore 0 ≤ entropyToScore 128 :=
  C5_entropy_to_score.2.2.1 0 128 (by norm_num)

/-- At least one class flag is set after one scan step (the default branch of
effectivePoolSize counts any unclassified rune as a symbol). -/
theorem classFlagStep_hasAny (f : Bool × Bool × Bool × Bool) (c : Char) :
    (classFlagStep f c).1 || ((classFlagStep f c).2.1 ||
      ((classFlagStep f c).2.2.1 || (classFlagStep f c).2.2.2)) = true := by
  unfold classFlagStep; split_ifs <;> simp

/-- Once a class flag is set, the scan keeps at least one flag set. -/
theorem foldl_classFlag_hasAny (l : Str) (acc : Bool × Bool × Bool × Bool)
    (h : acc.1 || (acc.2.1 || (acc.2.2.1 || acc.2.2.2)) = true) :
    (l.foldl classFlagStep acc).1 || ((l.foldl classFlagStep acc).2.1 ||
      ((l.foldl classFlagStep acc).2.2.1 || (l.foldl classFlagStep acc).2.2.2)) = true := by
  induction l generalizing acc with
  | nil => exact h
  | cons c l ih => rw [List.foldl_cons]; exact ih _ (classFlagStep_hasAny acc c)

/-- Every non-empty password yields an effective pool of at least 10. -/
theorem effectivePoolSize_ge_ten (p : Str) (hp : p ≠ []) : 10 ≤ effectivePoolSize p := by
  obtain ⟨c, rest, rfl⟩ := List.exists_cons_of_ne_nil hp
  unfold effectivePoolSize
  rw [List.foldl_cons]
  have h := foldl_classFlag_hasAny rest (classFlagStep (false, false, false, false) c)
    (classFlagStep_hasAny _ _)
  rcases hft : rest.foldl classFlagStep (classFlagStep (false, false, false, false) c) with
    ⟨a, b, d, e⟩
  rw [hft] at h
  cases a <;> cases b <;> cases d <;> cases e <;> simp_all

/-- UTF-8 encodings of single code points are never empty. -/
theorem utf8Bytes_ne_nil (c : Char) : utf8Bytes c ≠ [] := by
  simp only [utf8Bytes]; split_ifs <;> simp

/-- Non-empty passwords have positive byte length. -/
theorem utf8Len_pos (p : Str) (hp : p ≠ []) : 1 ≤ utf8Len p := by
  obtain ⟨c, rest, rfl⟩ := List.exists_cons_of_ne_nil hp
  show 1 ≤ (utf8Str (c :: rest)).length
  rw [utf8Str, List.length_append]
  have := List.length_pos.2 (utf8Bytes_ne_nil c)
  omega

/-- Non-empty passwords carry at least 3 bits of modelled entropy (pool at
least 10 ≥ 8 and byte length at least 1). -/
theorem calculateEntropy_ge_three (p : Str) (hp : p ≠ []) :
    3 ≤ calculateEntropy p ∧ 0 < calculateEntropy p := by
  have hlen := utf8Len_pos p hp
  have hpool := effectivePoolSize_ge_ten p hp
  have h3 : (3 : ℝ) ≤ calculateEntropy p := by
    rw [calculateEntropy, if_neg (by omega), if_neg (by omega)]
    have hpoolR : (8 : ℝ) ≤ (effectivePoolSize p : ℝ) := by exact_mod_cast (by omega : 8 ≤ effectivePoolSize p)
    have hlogb : (3 : ℝ) ≤ Real.logb 2 (effectivePoolSize p : ℝ) := by
      rw [Real.le_logb_iff_rpow_le one_lt_two (by linarith)]
      rw [show (3 : ℝ) = ((3 : ℕ) : ℝ) from by norm_num, Real.rpow_natCast]
      norm_num
      linarith
    have hlenR : (1 : ℝ) ≤ (utf8Len p : ℝ) := by exact_mod_cast hlen
    nlinarith
  exact ⟨h3, by linarith⟩

/-- Entropy of at least 3 bits maps to a score of at least 1. -/
theorem entropyToScore_ge_one {e : ℝ} (he : 3 ≤ e) : 1 ≤ entropyToScore e := by
  rw [entropyToScore, if_neg (by linarith : ¬ e ≤ 0)]
  apply clampHiLo_lower (by norm_num)
  rw [round_eq]
  apply Int.le_floor.2
  push_cast
  have h1 : Real.exp (-e / 40) ≤ Real.exp (-(3 : ℝ) / 40) := Real.exp_le_exp.2 (by linarith)
  have h2 : Real.exp (-(3 : ℝ) / 40) ≤ 40 / 43 := by
    have h3 : (43 : ℝ) / 40 ≤ Real.exp ((3 : ℝ) / 40) := by
      have := Real.add_one_le_exp ((3 : ℝ) / 40); linarith
    rw [show -(3 : ℝ) / 40 = -((3 : ℝ) / 40) from by ring, Real.exp_neg]
    calc (Real.exp ((3 : ℝ) / 40))⁻¹ ≤ ((43 : ℝ) / 40)⁻¹ := inv_anti₀ (by norm_num) h3
      _ = 40 / 43 := by norm_num
  linarith

/-- C10: for every non-empty password the effective pool size is at least 10,
so the degenerate pool ≤ 1 branch of calculateEntropy is unreachable, the
entropy is strictly positive, and the raw pre-penalty score is at least 1. -/
theorem C10_pool_floor : ∀ p : Str, p ≠ [] →
    10 ≤ effectivePoolSize p ∧ ¬ effectivePoolSize p ≤ 1 ∧
    0 < calculateEntropy p ∧ 1 ≤ entropyToScore (calculateEntropy p) := by
  intro p hp
  have hpool := effectivePoolSize_ge_ten p hp
  obtain ⟨h3, hpos⟩ := calculateEntropy_ge_three p hp
  exact ⟨hpool, by omega, hpos, entropyToScore_ge_one h3⟩

/-- C10 witness: the invariants at the concrete one-character password "a". -/
theorem C10_pool_floor_witness :
    10 ≤ effectivePoolSize (("a").toList) ∧ ¬ effectivePoolSize (("a").toList) ≤ 1 ∧
    0 < calculateEntropy (("a").toList) ∧
    1 ≤ entropyToScore (calculateEntropy (("a").toList)) :=
  C10_pool_floor (("a").toList) (by decide)

/-- Factor bounds for the common-password detector. -/
theorem pcpOn_factor {lower : Str} {dict : List Str} {vs : List Str} {d : PenaltyDetail}
    (h : pcpOn lower dict vs = some d) : 0 < d.factor ∧ d.factor ≤ 1 := by
  unfold pcpOn at h
  split_ifs at h with hc
  · obtain rfl := Option.some.inj h; constructor <;> norm_num
  · rcases hfind : vs.find? (fun v => dictContains dict v) with _ | v <;> rw [hfind] at h
    · cases h
    · obtain rfl := Option.some.inj h; constructor <;> norm_num

/-- Factor bounds for the repeated-characters detector. -/
theorem prc_factor {lower : Str} {d : PenaltyDetail}
    (h : penaltyRepeatedChars lower = some d) : 0 < d.factor ∧ d.factor ≤ 1 := by
  simp only [penaltyRepeatedChars] at h
  split_ifs at h <;>
  · obtain rfl := Option.some.inj h
    constructor <;> norm_num

/-- Factor bounds for the sequential-characters detector. -/
theorem psc_factor {lower : Str} {d : PenaltyDetail}
    (h : penaltySequentialChars lower = some d) : 0 < d.factor ∧ d.factor ≤ 1 := by
  simp only [penaltySequentialChars] at h
  split_ifs at h <;>
  · obtain rfl := Option.some.inj h
    constructor <;> norm_num

/-- Factor bounds for the keyboard-pattern detector. -/
theorem pkp_factor {lower : Str} {d : PenaltyDetail}
    (h : penaltyKeyboardPatterns lower = some d) : 0 < d.factor ∧ d.factor ≤ 1 := by
  simp only [penaltyKeyboardPatterns] at h
  split_ifs at h <;>
  · obtain rfl := Option.some.inj h
    constructor <;> norm_num

/-- Factor bounds for the dictionary-substring detector. -/
theorem pds_factor {lower : Str} {dict : List Str} {d : PenaltyDetail}
    (h : penaltyDictionarySubstring lower dict = some d) : 0 < d.factor ∧ d.factor ≤ 1 := by
  simp only [penaltyDictionarySubstring] at h
  split_ifs at h <;>
  · obtain rfl := Option.some.inj h
    constructor <;> norm_num

/-- Every emitted penalty has a factor in (0, 1]. -/
theorem detectPenalties_factors (password : Str) (dict : List Str)
    (ord : List Str → List Str) :
    ∀ d ∈ detectPenalties password dict ord, 0 < d.factor ∧ d.factor ≤ 1 := by
  intro d hd
  simp only [detectPenalties, List.mem_append, Option.mem_toList, Option.mem_def] at hd
  rcases hd with ((((h | h) | h) | h) | h)
  · exact pcpOn_factor h
  · exact prc_factor h
  · exact psc_factor h
  · exact pkp_factor h
  · exact pds_factor h

/-- Truncation toward zero preserves nonnegativity. -/
theorem goTrunc_nonneg {q : ℚ} (h : 0 ≤ q) : 0 ≤ goTrunc q := by
  unfold goTrunc
  rw [if_neg (by linarith)]
  exact Int.floor_nonneg.2 h

/-- Truncation toward zero respects integer upper bounds. -/
theorem goTrunc_le {q : ℚ} {s : Int} (h : q ≤ (s : ℚ)) : goTrunc q ≤ s := by
  unfold goTrunc
  split_ifs with hq
  · rw [show -Int.floor (-q) = Int.ceil q from by rw [Int.floor_neg, neg_neg]]
    exact Int.ceil_le.2 h
  · exact (Int.floor_mono h).trans_eq (Int.floor_intCast s)

/-- Applying penalties in (0, 1] multiplicatively (with int truncation at each
step, as validate does) keeps the score in [0, initial]. -/
theorem foldl_penalties_bound (l : List PenaltyDetail)
    (hl : ∀ d ∈ l, 0 < d.factor ∧ d.factor ≤ 1) :
    ∀ s : Int, 0 ≤ s →
      0 ≤ l.foldl (fun s p => goTrunc ((s : ℚ) * p.factor)) s ∧
      l.foldl (fun s p => goTrunc ((s : ℚ) * p.factor)) s ≤ s := by
  induction l with
  | nil => exact fun s hs => ⟨hs, le_refl s⟩
  | cons d l ih =>
    intro s hs
    obtain ⟨hd0, hd1⟩ := hl d (List.mem_cons_self _ _)
    have hsq : (0 : ℚ) ≤ (s : ℚ) := by exact_mod_cast hs
    have hstep0 : 0 ≤ goTrunc ((s : ℚ) * d.factor) := goTrunc_nonneg (mul_nonneg hsq hd0.le)
    have hstep1 : goTrunc ((s : ℚ) * d.factor) ≤ s := goTrunc_le (by nlinarith)
    have hrest := ih (fun d hd => hl d (List.mem_cons_of_mem _ hd)) _ hstep0
    rw [List.foldl_cons]
    exact ⟨hrest.1, hrest.2.trans hstep1⟩

/-- The clamp of validate is the identity on [0, 100]. -/
theorem clampLoHi_eq {s : Int} (h0 : 0 ≤ s) (h1 : s ≤ 100) : clampLoHi s = s := by
  unfold clampLoHi; split_ifs <;> omega

/-- C9: every PenaltyDetail emitted by the five detectors carries a factor in
(0, 1], and the final score of validate never exceeds the raw entropy score
(penalties only decrease or preserve the score) and never goes negative. -/
theorem C9_penalties_decrease :
    ∀ (v : PasswordValidator) (ord : List Str → List Str) (password : Str),
    (∀ d ∈ detectPenalties password v.dict ord, 0 < d.factor ∧ d.factor ≤ 1) ∧
    (validate v ord password).2.1 ≤ entropyToScore (calculateEntropy password) ∧
    0 ≤ (validate v ord password).2.1 := by
  intro v ord password
  refine ⟨detectPenalties_factors password v.dict ord, ?_, ?_⟩ <;>
  · have heq : (validate v ord password).2.1 =
        clampLoHi ((detectPenalties password v.dict ord).foldl
          (fun s p => goTrunc ((s : ℚ) * p.factor))
          (entropyToScore (calculateEntropy password))) := rfl
    obtain ⟨hf0, hf1⟩ := foldl_penalties_bound _ (detectPenalties_factors password v.dict ord) _
      (entropyToScore_nonneg (calculateEntropy password))
    rw [heq, clampLoHi_eq hf0 (hf1.trans (entropyToScore_le_100 _))]
    first
    | exact hf1
    | exact hf0

/-- Dictionary-free validator used by concrete witnesses. -/
def plainConfig : PasswordValidator := NewPasswordValidatorWithDict 1 64 false false false false 0 [] []

/-- Evaluation of the repeated-characters detector on "aaaa": run of 4 and
25 percent diversity give factor 0.4 × 0.5 = 0.2. -/
theorem prc_aaaa : penaltyRepeatedChars (("aaaa").toList) =
    some ⟨("repeated_chars").toList, 1/5,
      joinWith (("; ").toList) [repeatMsg 4, lowDiversityMsg (1/4)]⟩ := by
  have hur : uniqueRatio (("aaaa").toList) = 1/4 := by
    rw [uniqueRatio, show ((("aaaa").toList).dedup).length = 1 from by decide,
      show (utf8Str (("aaaa").toList)).length = 4 from by decide]
    norm_num
  simp only [penaltyRepeatedChars, hur, show (utf8Str (("aaaa").toList)).length = 4 from by decide,
    show maxRepeatRun (utf8Str (("aaaa").toList)) = 4 from by decide]
  norm_num

/-- C9 witness: the factor bounds at the concrete penalty emitted for "aaaa"
under the dictionary-free validator. -/
theorem C9_penalties_decrease_witness :
    0 < ((⟨("repeated_chars").toList, 1/5,
      joinWith (("; ").toList) [repeatMsg 4, lowDiversityMsg (1/4)]⟩ :
        PenaltyDetail)).factor ∧
    ((⟨("repeated_chars").toList, 1/5,
      joinWith (("; ").toList) [repeatMsg 4, lowDiversityMsg (1/4)]⟩ :
        PenaltyDetail)).factor ≤ 1 := by
  apply (C9_penalties_decrease plainConfig id (("aaaa").toList)).1
  have hlow : ((("aaaa").toList).map goToLower) = ("aaaa").toList := by decide
  simp only [detectPenalties, hlow, List.mem_append]
  refine Or.inl (Or.inl (Or.inl (Or.inr ?_)))
  rw [Option.mem_toList, Option.mem_def]
  exact prc_aaaa

/-- Whether find? succeeds is invariant under permutation of the list. -/
theorem find?_isSome_of_perm {l1 l2 : List Str} (hp : l1.Perm l2) (p : Str → Bool) :
    (l1.find? p).isSome = (l2.find? p).isSome := by
  rcases h1 : l1.find? p with _ | v
  · rw [List.find?_eq_none] at h1
    rcases h2 : l2.find? p with _ | w
    · rfl
    · have hw := List.find?_some h2
      have hmem := List.mem_of_find?_eq_some h2
      exact absurd hw (by simp [h1 w (hp.mem_iff.2 hmem)])
  · have hv := List.find?_some h1
    have hmem := List.mem_of_find?_eq_some h1
    rcases h2 : l2.find? p with _ | w
    · rw [List.find?_eq_none] at h2
      exact absurd hv (by simp [h2 v (hp.mem_iff.1 hmem)])
    · rfl

/-- Rule tag and factor of the common-password detector are invariant under
the variant iteration order (only the reported variant text can change). -/
theorem pcpOn_perm {lower : Str} {dict : List Str} {l1 l2 : List Str} (hp : l1.Perm l2) :
    (pcpOn lower dict l1).map (fun d => (d.rule, d.factor)) =
      (pcpOn lower dict l2).map (fun d => (d.rule, d.factor)) := by
  unfold pcpOn
  split_ifs
  · rfl
  · have hs := find?_isSome_of_perm hp (fun v => dictContains dict v)
    rcases h1 : l1.find? (fun v => dictContains dict v) with _ | v <;>
      rcases h2 : l2.find? (fun v => dictContains dict v) with _ | w <;>
      rw [h1, h2] at hs <;> simp at hs ⊢

/-- Option toList commutes with map. -/
theorem optToList_map (f : PenaltyDetail → Str × ℚ) (o : Option PenaltyDetail) :
    (o.toList).map f = (o.map f).toList := by
  cases o <;> rfl

/-- The (rule, factor) projection of the emitted penalty list is invariant
under the variant iteration order. -/
theorem detectPenalties_perm {password : Str} {dict : List Str}
    {ord1 ord2 : List Str → List Str}
    (h12 : (ord1 (leetVariantsL (password.map goToLower))).Perm
      (ord2 (leetVariantsL (password.map goToLower)))) :
    (detectPenalties password dict ord1).map (fun d => (d.rule, d.factor)) =
      (detectPenalties password dict ord2).map (fun d => (d.rule, d.factor)) := by
  simp only [detectPenalties, penaltyCommonPassword, List.map_append, optToList_map]
  rw [pcpOn_perm h12]

/-- Score folding depends only on the penalty factors. -/
theorem foldl_score_eq {l1 l2 : List PenaltyDetail}
    (h : l1.map (fun d => (d.rule, d.factor)) = l2.map (fun d => (d.rule, d.factor))) :
    ∀ s : Int, l1.foldl (fun s p => goTrunc ((s : ℚ) * p.factor)) s =
      l2.foldl (fun s p => goTrunc ((s : ℚ) * p.factor)) s := by
  induction l1 generalizing l2 with
  | nil => cases l2 with
    | nil => exact fun s => rfl
    | cons e l2 => cases h
  | cons d l ih =>
    cases l2 with
    | nil => cases h
    | cons e l2 =>
      intro s
      rw [List.map_cons, List.map_cons] at h
      injection h with hhead htail
      have hfac : d.factor = e.factor := by simpa using congrArg Prod.snd hhead
      rw [List.foldl_cons, List.foldl_cons, hfac]
      exact ih htail _

/-- C3 amended: the pass verdict, the score, the rule-failure list, and the
rule tag and factor of every applied penalty are pure functions of
(password, configuration, dictionary): they agree across any two runs,
whatever variant iteration order the Go map produces in each.  (Only the
matched-variant text inside the common_password_leet description can differ
between runs; see the counterexample.) -/
theorem C3_outcome_deterministic :
    ∀ (v : PasswordValidator) (password : Str) (ord1 ord2 : List Str → List Str),
    (ord1 (leetVariantsL (password.map goToLower))).Perm
      (leetVariantsL (password.map goToLower)) →
    (ord2 (leetVariantsL (password.map goToLower))).Perm
      (leetVariantsL (password.map goToLower)) →
    (validate v ord1 password).1 = (validate v ord2 password).1 ∧
    (validate v ord1 password).2.1 = (validate v ord2 password).2.1 ∧
    (validate v ord1 password).2.2.RuleFails = (validate v ord2 password).2.2.RuleFails ∧
    (validate v ord1 password).2.2.Penalties.map (fun d => (d.rule, d.factor)) =
      (validate v ord2 password).2.2.Penalties.map (fun d => (d.rule, d.factor)) := by
  intro v password ord1 ord2 h1 h2
  have hmap := @detectPenalties_perm password v.dict ord1 ord2 (h1.trans h2.symm)
  have hfold := foldl_score_eq hmap (entropyToScore (calculateEntropy password))
  have e1 : (validate v ord1 password).2.1 = clampLoHi
      ((detectPenalties password v.dict ord1).foldl (fun s p => goTrunc ((s : ℚ) * p.factor))
        (entropyToScore (calculateEntropy password))) := rfl
  have e2 : (validate v ord2 password).2.1 = clampLoHi
      ((detectPenalties password v.dict ord2).foldl (fun s p => goTrunc ((s : ℚ) * p.factor))
        (entropyToScore (calculateEntropy password))) := rfl
  have hscore : (validate v ord1 password).2.1 = (validate v ord2 password).2.1 := by
    rw [e1, e2, hfold]
  refine ⟨?_, hscore, ?_, hmap⟩
  · have f1 : (validate v ord1 password).1 = ((ruleChecks v password).isEmpty &&
        decide ((validate v ord1 password).2.1 ≥ v.Complexity)) := rfl
    have f2 : (validate v ord2 password).1 = ((ruleChecks v password).isEmpty &&
        decide ((validate v ord2 password).2.1 ≥ v.Complexity)) := rfl
    rw [f1, f2, hscore]
  · have g1 : (validate v ord1 password).2.2.RuleFails =
        (if decide ((validate v ord1 password).2.1 ≥ v.Complexity) = true
          then ruleChecks v password
          else ruleChecks v password ++
            [complexityMsg ((validate v ord1 password).2.1) v.Complexity]) := rfl
    have g2 : (validate v ord2 password).2.2.RuleFails =
        (if decide ((validate v ord2 password).2.1 ≥ v.Complexity) = true
          then ruleChecks v password
          else ruleChecks v password ++
            [complexityMsg ((validate v ord2 password).2.1) v.Complexity]) := rfl
    rw [g1, g2, hscore]

/-- C3 amended witness: two identical runs agree (iteration order `id`). -/
theorem C3_outcome_deterministic_witness :
    (validate plainConfig id (("p@ss1").toList)).2.1 =
      (validate plainConfig id (("p@ss1").toList)).2.1 :=
  (C3_outcome_deterministic plainConfig (("p@ss1").toList) id id
    (List.Perm.refl _) (List.Perm.refl _)).2.1

/-- Validator for the C3 counterexample: requires an uppercase letter (so the
verbose detail is exposed on failure), threshold 0, and a custom dictionary
containing both ambiguous normalizations of "p@ss1". -/
def c3Config : PasswordValidator :=
  NewPasswordValidatorWithDict 1 64 false true false false 0 (("passi\npassl").toList) []

/-- Under iteration order id, the first matching variant is "passi". -/
theorem c3_find_id :
    penaltyCommonPassword ((("p@ss1").toList).map goToLower) c3Config.dict id =
      some ⟨("common_password_leet").toList, 3/20, leetMatchDesc (("passi").toList)⟩ := by
  unfold penaltyCommonPassword pcpOn
  rw [if_neg (by decide),
    show (id (leetVariantsL ((("p@ss1").toList).map goToLower))).find?
      (fun v => dictContains c3Config.dict v) = some (("passi").toList) from by decide]

/-- Under the reversed iteration order, the first matching variant is "passl". -/
theorem c3_find_rev :
    penaltyCommonPassword ((("p@ss1").toList).map goToLower) c3Config.dict List.reverse =
      some ⟨("common_password_leet").toList, 3/20, leetMatchDesc (("passl").toList)⟩ := by
  unfold penaltyCommonPassword pcpOn
  rw [if_neg (by decide),
    show (List.reverse (leetVariantsL ((("p@ss1").toList).map goToLower))).find?
      (fun v => dictContains c3Config.dict v) = some (("passl").toList) from by decide]

/-- C3 counterexample: the claim asserts the verbose detail, including the
exact matched-variant text of common_password_leet, is a pure function of
(password, configuration, dictionary).  But the Go code walks the variant
set in map iteration order, which Go randomizes: on "p@ss1" with a dictionary
containing both "passi" and "passl", two legitimate iteration orders of the
same variant set produce different descriptions, so two calls with identical
inputs can return different verbose details. -/
theorem C3_counterexample :
    (List.reverse (leetVariantsL ((("p@ss1").toList).map goToLower))).Perm
      (leetVariantsL ((("p@ss1").toList).map goToLower)) ∧
    (ValidateVerbose c3Config id (("p@ss1").toList)).2.2 ≠
      (ValidateVerbose c3Config List.reverse (("p@ss1").toList)).2.2 := by
  refine ⟨List.reverse_perm _, fun h => ?_⟩
  have h1 : (validate c3Config id (("p@ss1").toList)).1 = false := by
    have e : (validate c3Config id (("p@ss1").toList)).1 =
        ((ruleChecks c3Config (("p@ss1").toList)).isEmpty &&
          decide ((validate c3Config id (("p@ss1").toList)).2.1 ≥ c3Config.Complexity)) := rfl
    rw [e, show (ruleChecks c3Config (("p@ss1").toList)).isEmpty = false from by decide,
      Bool.false_and]
  have h2 : (validate c3Config List.reverse (("p@ss1").toList)).1 = false := by
    have e : (validate c3Config List.reverse (("p@ss1").toList)).1 =
        ((ruleChecks c3Config (("p@ss1").toList)).isEmpty &&
          decide ((validate c3Config List.reverse (("p@ss1").toList)).2.1 ≥
            c3Config.Complexity)) := rfl
    rw [e, show (ruleChecks c3Config (("p@ss1").toList)).isEmpty = false from by decide,
      Bool.false_and]
  simp only [ValidateVerbose, h1, h2, Bool.false_eq_true, if_false] at h
  have hp := congrArg ValidationError.Penalties (Option.some.inj h)
  have eP1 : (validate c3Config id (("p@ss1").toList)).2.2.Penalties =
      detectPenalties (("p@ss1").toList) c3Config.dict id := rfl
  have eP2 : (validate c3Config List.reverse (("p@ss1").toList)).2.2.Penalties =
      detectPenalties (("p@ss1").toList) c3Config.dict List.reverse := rfl
  rw [eP1, eP2] at hp
  have eD : ∀ ord : List Str → List Str,
      detectPenalties (("p@ss1").toList) c3Config.dict ord =
      (penaltyCommonPassword ((("p@ss1").toList).map goToLower) c3Config.dict ord).toList ++
      (penaltyRepeatedChars ((("p@ss1").toList).map goToLower)).toList ++
      (penaltySequentialChars ((("p@ss1").toList).map goToLower)).toList ++
      (penaltyKeyboardPatterns ((("p@ss1").toList).map goToLower)).toList ++
      (penaltyDictionarySubstring ((("p@ss1").toList).map goToLower) c3Config.dict).toList :=
    fun ord => rfl
  rw [eD, eD] at hp
  have hc := List.append_cancel_right (List.append_cancel_right
    (List.append_cancel_right (List.append_cancel_right hp)))
  rw [c3_find_id, c3_find_rev] at hc
  simp only [Option.toList_some] at hc
  injection hc with hd _
  exact absurd (congrArg PenaltyDetail.desc hd) (by decide)
